import Mathlib

/-!
Verification model of the commute-feed curation engine (`src/commute-gen.js`).

JavaScript numbers are modelled as `ℚ`; the NaN value produced by failed
numeric conversions is modelled by `Option ℚ` with `none` standing for NaN.
JavaScript strings are processed through `List Char`; the `Number` and
`parseInt` conversions are modelled for decimal notation (optionally signed,
with fraction and exponent); hexadecimal, octal, binary and `Infinity`
literal forms are outside the model. `new Date()` readings are modelled by
explicit clock parameters.
-/

set_option maxRecDepth 4000

/-- Model of a JavaScript value that can arrive as the raw `duration` field:
absent (`undefined`/`null`), a number, or a string. -/
inductive JSVal where
  | undefined : JSVal
  | num : ℚ → JSVal
  | str : String → JSVal
deriving DecidableEq

/-- ASCII/Unicode whitespace test used when trimming, as `Number` and
`parseInt` do before converting. -/
def isWS (c : Char) : Bool := c.isWhitespace

/-- Leading- and trailing-whitespace trim on a character list. -/
def jsTrim (l : List Char) : List Char :=
  ((l.dropWhile isWS).reverse.dropWhile isWS).reverse

/-- Splits the leading run of decimal digits from a character list, returning
the digits and the remaining characters. -/
def takeDigits : List Char → List Char × List Char
  | [] => ([], [])
  | c :: cs =>
    if c.isDigit then
      let p := takeDigits cs
      (c :: p.1, p.2)
    else ([], c :: cs)

/-- Numeric value of a digit run. -/
def digitsVal (l : List Char) : ℕ :=
  l.foldl (fun a c => a * 10 + (c.toNat - 48)) 0

/-- Parses an exponent suffix (the part after `e`/`E`): an optional sign and
at least one digit, which must use up the whole remaining input. -/
def parseExpPart (l : List Char) : Option ℤ :=
  match l with
  | '+' :: r => if r ≠ [] ∧ r.all Char.isDigit then some (digitsVal r) else none
  | '-' :: r => if r ≠ [] ∧ r.all Char.isDigit then some (-(digitsVal r : ℤ)) else none
  | r => if r ≠ [] ∧ r.all Char.isDigit then some (digitsVal r) else none

/-- Parses an unsigned decimal literal in the forms accepted by JavaScript
`Number`: `digits`, `digits.digits`, `digits.`, `.digits`, each with an
optional `e`/`E` exponent; `none` models NaN. -/
def parseUnsignedNum (l : List Char) : Option ℚ :=
  let ip := takeDigits l
  match ip.2 with
  | [] => if ip.1 = [] then none else some (digitsVal ip.1 : ℚ)
  | '.' :: rest2 =>
    let fp := takeDigits rest2
    if ip.1 = [] ∧ fp.1 = [] then none
    else
      let base : ℚ := (digitsVal ip.1 : ℚ) + (digitsVal fp.1 : ℚ) / ((10 : ℚ) ^ fp.1.length)
      match fp.2 with
      | [] => some base
      | 'e' :: r => (parseExpPart r).map (fun e => base * (10 : ℚ) ^ e)
      | 'E' :: r => (parseExpPart r).map (fun e => base * (10 : ℚ) ^ e)
      | _ => none
  | 'e' :: r =>
    if ip.1 = [] then none
    else (parseExpPart r).map (fun e => (digitsVal ip.1 : ℚ) * (10 : ℚ) ^ e)
  | 'E' :: r =>
    if ip.1 = [] then none
    else (parseExpPart r).map (fun e => (digitsVal ip.1 : ℚ) * (10 : ℚ) ^ e)
  | _ => none

/-- JavaScript `Number` conversion of a character list: trims, accepts the
empty string as `0`, then an optionally signed decimal literal; `none`
models NaN. -/
def jsNumberL (l : List Char) : Option ℚ :=
  match jsTrim l with
  | [] => some 0
  | '+' :: r => parseUnsignedNum r
  | '-' :: r => (parseUnsignedNum r).map Neg.neg
  | t => parseUnsignedNum t

/-- JavaScript `Number` conversion of a string (used by `isNaN` and by
mapping `Number` over the pieces of `duration.split(':')`). -/
def jsNumber (s : String) : Option ℚ := jsNumberL s.toList

/-- JavaScript `parseInt` in base 10: trims, reads an optional sign and then
the leading run of digits, ignoring the rest; `none` models NaN. -/
def parseIntL (l : List Char) : Option ℤ :=
  match jsTrim l with
  | '+' :: r => if (takeDigits r).1 = [] then none else some (digitsVal (takeDigits r).1 : ℤ)
  | '-' :: r => if (takeDigits r).1 = [] then none else some (-(digitsVal (takeDigits r).1 : ℤ))
  | t => if (takeDigits t).1 = [] then none else some (digitsVal (takeDigits t).1 : ℤ)

/-- JavaScript `parseInt` on a string. -/
def parseIntJS (s : String) : Option ℤ := parseIntL s.toList

/-- JavaScript `split(':')` on a character list. -/
def splitOnColon : List Char → List (List Char)
  | [] => [[]]
  | c :: rest =>
    if c = ':' then [] :: splitOnColon rest
    else
      match splitOnColon rest with
      | [] => [[c]]
      | g :: gs => (c :: g) :: gs

/-- NaN-propagating addition on modelled JavaScript numbers. -/
def jAdd (a b : Option ℚ) : Option ℚ :=
  match a, b with
  | some x, some y => some (x + y)
  | _, _ => none

/-- NaN-propagating multiplication by a (non-NaN) constant. -/
def jMulC (a : Option ℚ) (c : ℚ) : Option ℚ := a.map (fun x => x * c)

/-- NaN-propagating division by a (non-NaN, nonzero) constant. -/
def jDivC (a : Option ℚ) (c : ℚ) : Option ℚ := a.map (fun x => x / c)

/-- Model of `parseDuration` (src/commute-gen.js lines 27-36): falsy input
gives 0; numbers are seconds divided by 60; non-NaN numeric strings go
through `parseInt` and are divided by 60; otherwise the string is split on
`:` and a 3-part split is read as `H:MM:SS`, a 2-part split as `MM:SS`
(each piece converted by `Number`, so NaN pieces propagate); any other
split length gives 0. -/
def parseDuration : JSVal → Option ℚ
  | JSVal.undefined => some 0
  | JSVal.num q => if q = 0 then some 0 else some (q / 60)
  | JSVal.str s =>
    if s = "" then some 0
    else if (jsNumber s).isSome then (parseIntJS s).map (fun n => (n : ℚ) / 60)
    else
      let parts := (splitOnColon s.toList).map jsNumberL
      if parts.length = 3 then
        jAdd (jAdd (jMulC (parts.getD 0 none) 60) (parts.getD 1 none)) (jDivC (parts.getD 2 none) 60)
      else if parts.length = 2 then
        jAdd (parts.getD 0 none) (jDivC (parts.getD 1 none) 60)
      else some 0

/-- Candidate episode record as built per feed item (src/commute-gen.js
lines 78-88): `pubDate` is a millisecond timestamp, `duration` is in
minutes, `audio_url` is `none` when the item has no enclosure URL. -/
structure Item where
  title : String
  link : String
  guid : Option String
  audio_url : Option String
  pubDate : ℚ
  duration : ℚ
  contentSnippet : String
  feedName : String
  tags : List String
deriving DecidableEq

/-- Scored candidate: the spread `{ ...item, score }` of line 140. -/
structure ScoredItem extends Item where
  score : ℤ
deriving DecidableEq

/-- Entry of the heterogeneous `selected` array: either the unscored news
briefing or a scored candidate. -/
inductive Entry where
  | brief : Item → Entry
  | scored : ScoredItem → Entry
deriving DecidableEq

/-- Title of a selection entry, as read by the duplicate check of line 160. -/
def Entry.title : Entry → String
  | Entry.brief b => b.title
  | Entry.scored i => i.title

/-- Duration of a selection entry in minutes. -/
def Entry.duration : Entry → ℚ
  | Entry.brief b => b.duration
  | Entry.scored i => i.duration

/-- The `config.rules` object (keyword lists used by the scorer and the
date-night merge). -/
structure Rules where
  boost_keywords : List String
  block_keywords : List String
  boost_guests : List String
  datenight_keywords : List String
  datenight_block : List String
deriving DecidableEq

/-- State of the `config.rules` object after the date-night merge of lines
65-69. The source reassigns `rules.boost_keywords` and
`rules.block_keywords` on the very object `config.rules` refers to, so
this is also the state of the base configuration after the merge. -/
def applyDateNightMerge (rules : Rules) : Rules :=
  { rules with
    boost_keywords := rules.boost_keywords ++ rules.datenight_keywords,
    block_keywords := rules.block_keywords ++ rules.datenight_block }

/-- Rules in effect for a run: merged when the run happens on a Thursday. -/
def rulesForRun (rules : Rules) (isThursday : Bool) : Rules :=
  if isThursday then applyDateNightMerge rules else rules

/-- Lower-cases a string into a character list; models the ASCII core of
`String.prototype.toLowerCase`. -/
def lowerL (s : String) : List Char := s.toList.map Char.toLower

/-- Contiguous-substring test on character lists; models
`String.prototype.includes`. -/
def containsSub (hay needle : List Char) : Bool :=
  match hay with
  | [] => needle.isEmpty
  | _ :: t => needle.isPrefixOf hay || containsSub t needle

/-- Tag set whose members decay quickly (line 118). -/
def newsyTags : List String := ["news", "tech", "space", "business"]

/-- Score of one candidate (src/commute-gen.js lines 106-140), given the
effective rules, the date-night flag and the `new Date()` reading `now`
(milliseconds) taken inside this candidate's map callback. -/
def scoreItem (item : Item) (rules : Rules) (isThursday : Bool) (now : ℚ) : ℤ :=
  let text := lowerL (item.title ++ " " ++ item.contentSnippet)
  let ageInDays : ℚ := (now - item.pubDate) / (1000 * 60 * 60 * 24)
  let s1 : ℤ := rules.boost_keywords.foldl
    (fun s kw => if containsSub text (lowerL kw) then s + 15 else s) 0
  let s2 := rules.boost_guests.foldl
    (fun s g => if containsSub text (lowerL g) then s + 50 else s) s1
  let s3 := rules.block_keywords.foldl
    (fun s kw => if containsSub text (lowerL kw) then s - 100 else s) s2
  let s4 :=
    if item.tags.any (fun t => newsyTags.contains t) then
      if ageInDays < 2 then s3 + 30
      else if ageInDays < 5 then s3 + 10
      else s3 - 50
    else
      if ageInDays < 7 then s3 + 10 else s3
  let s5 := if 15 ≤ item.duration ∧ item.duration ≤ 60 then s4 + 10 else s4
  let s6 := if item.duration > 90 then s5 - 30 else s5
  let s7 := if item.duration < 5 then s6 - 10 else s6
  if isThursday then
    let a := if item.tags.contains "date_night" then s7 + 40 else s7
    let b := if item.tags.contains "comedy" then a + 30 else a
    if item.tags.contains "tech" then b - 20 else b
  else s7

/-- Scores every candidate (the `candidates.map` of line 106). Each map
callback evaluates `new Date()` afresh; `clock i` is the reading observed
by the callback for the candidate at position `i`. -/
def scoreAll (cands : List Item) (rules : Rules) (isThursday : Bool) (clock : ℕ → ℚ) : List ScoredItem :=
  cands.enum.map (fun p => { p.2 with score := scoreItem p.2 rules isThursday (clock p.1) })

/-- Scoring followed by the post-scoring filter of line 141: only
candidates with `score > -20` survive. -/
def scoreAndFilter (cands : List Item) (rules : Rules) (isThursday : Bool) (clock : ℕ → ℚ) : List ScoredItem :=
  (scoreAll cands rules isThursday clock).filter (fun it => -20 < it.score)

/-- Inserts a scored item into a score-descending list, after every item of
score not below its own. -/
def insertDesc (x : ScoredItem) : List ScoredItem → List ScoredItem
  | [] => [x]
  | y :: ys => if y.score ≤ x.score then x :: y :: ys else y :: insertDesc x ys

/-- Model of `scoredItems.sort((a, b) => b.score - a.score)` (line 143).
The ECMAScript sort is stable, and under this comparator the stable result
is the unique score-descending reordering that keeps equal-score items in
their original relative order; a stable insertion sort realizes exactly
that reordering. -/
def sortByScoreDesc (l : List ScoredItem) : List ScoredItem :=
  l.foldr insertDesc []

/-- Feed configuration entry from `feeds.json` (`name`, `tags`). -/
structure FeedConfig where
  name : String
  tags : List String
deriving DecidableEq

/-- One successfully fetched feed: its static configuration and its items
after the per-item field mapping of lines 79-87 (titles, parsed durations,
timestamps, the feed's own name and tags). -/
structure Feed where
  config : FeedConfig
  items : List Item
deriving DecidableEq

/-- Truthiness of the mapped `audio_url` field, as tested by the filter of
line 88: present and non-empty. -/
def truthyStr : Option String → Bool
  | none => false
  | some s => s ≠ ""

/-- Items of a feed that reach the routing step: the first five fetched
items (`feed.items.slice(0, 5)`, line 78) with an enclosure URL (line 88). -/
def feedItems (f : Feed) : List Item :=
  (f.items.take 5).filter (fun i => truthyStr i.audio_url)

/-- Whether a feed is tagged both `news` and `briefing` (line 91). -/
def bothTags (f : Feed) : Bool :=
  f.config.tags.contains "news" && f.config.tags.contains "briefing"

/-- One iteration of the fetch loop of lines 75-103 over the accumulated
`(candidates, newsBriefing)` state: a news-briefing feed contributes its
first sub-15-minute item to the briefing slot (kept only when strictly
fresher than the current holder); every other feed appends its items to
the general candidate pool. -/
def fetchStep (st : List Item × Option Item) (f : Feed) : List Item × Option Item :=
  let items := feedItems f
  if bothTags f then
    match items.find? (fun i => decide (i.duration < 15)), st.2 with
    | some b, none => (st.1, some b)
    | some b, some cur => if b.pubDate > cur.pubDate then (st.1, some b) else st
    | none, _ => st
  else (st.1 ++ items, st.2)

/-- The whole fetch loop: final `(candidates, newsBriefing)` state. -/
def fetchAll (feeds : List Feed) : List Item × Option Item :=
  feeds.foldl fetchStep ([], none)

/-- Replaces a feed's fetched items by their first five, for stating that
the engine never looks past `slice(0, 5)`. -/
def truncateFeed (f : Feed) : Feed :=
  { f with items := f.items.take 5 }

/-- The packing loop of lines 159-168, iterating over the sorted scored
candidates while growing the `selected` list and the `currentDuration`
accumulator: an item is skipped when its title is already selected, when
it is longer than 90 minutes with score below 50, or when it would push
`currentDuration` past `target + 15` with score below 60; otherwise it is
appended, and the loop breaks once `currentDuration` reaches the target. -/
def packGo (target : ℚ) : List ScoredItem → List Entry → ℚ → List Entry
  | [], selected, _ => selected
  | item :: rest, selected, currentDuration =>
    if selected.any (fun s => s.title == item.title) then
      packGo target rest selected currentDuration
    else if item.duration > 90 ∧ item.score < 50 then
      packGo target rest selected currentDuration
    else if currentDuration + item.duration > target + 15 ∧ item.score < 60 then
      packGo target rest selected currentDuration
    else
      let selected2 := selected ++ [Entry.scored item]
      let currentDuration2 := currentDuration + item.duration
      if currentDuration2 ≥ target then selected2
      else packGo target rest selected2 currentDuration2

/-- Companion to `packGo` returning only the entries the loop appends
beyond the already-selected prefix. -/
def newAdmits (target : ℚ) : List ScoredItem → List Entry → ℚ → List Entry
  | [], _, _ => []
  | item :: rest, selected, currentDuration =>
    if selected.any (fun s => s.title == item.title) then
      newAdmits target rest selected currentDuration
    else if item.duration > 90 ∧ item.score < 50 then
      newAdmits target rest selected currentDuration
    else if currentDuration + item.duration > target + 15 ∧ item.score < 60 then
      newAdmits target rest selected currentDuration
    else
      let currentDuration2 := currentDuration + item.duration
      if currentDuration2 ≥ target then [Entry.scored item]
      else Entry.scored item :: newAdmits target rest (selected ++ [Entry.scored item]) currentDuration2

/-- Freshness gate for the briefing (lines 149-151): age in hours at the
`new Date()` reading `now` is below 24. -/
def freshBriefing (b : Item) (now : ℚ) : Prop :=
  (now - b.pubDate) / (1000 * 60 * 60) < 24

instance (b : Item) (now : ℚ) : Decidable (freshBriefing b now) := by
  unfold freshBriefing; infer_instance

/-- Selection phase (lines 146-168): seed with the briefing when it exists
and is fresh, then run the packing loop over the score-sorted candidates.
`now` is the `new Date()` reading of the freshness gate of line 150. -/
def pack (newsBriefing : Option Item) (scoredItems : List ScoredItem) (target now : ℚ) : List Entry :=
  let sorted := sortByScoreDesc scoredItems
  match newsBriefing with
  | some b =>
    if freshBriefing b now then packGo target sorted [Entry.brief b] b.duration
    else packGo target sorted [] 0
  | none => packGo target sorted [] 0

/-- Whole engine run on already-fetched feeds (the part of `run` in scope:
rule merge, routing, scoring, filtering, sorting, packing). `clock i` is
the `new Date()` reading taken while scoring candidate `i`; `now` is the
reading taken at the briefing freshness gate. -/
def runSelection (feeds : List Feed) (rules : Rules) (isThursday : Bool)
    (clock : ℕ → ℚ) (now target : ℚ) : List Entry :=
  let fetched := fetchAll feeds
  pack fetched.2 (scoreAndFilter fetched.1 (rulesForRun rules isThursday) isThursday clock) target now

/-- Pointwise predicate over a list. -/
def All (p : α → Prop) : List α → Prop
  | [] => True
  | x :: xs => p x ∧ All p xs

/-- Budget discipline of a run of admissions starting from accumulated
duration `cur`: each admitted entry either keeps the accumulator within
`target + 15` or carries a score of at least 60 (and only scored entries
are admitted). -/
def admittedOK (target : ℚ) : ℚ → List Entry → Prop
  | _, [] => True
  | cur, Entry.scored item :: rest =>
    (cur + item.duration ≤ target + 15 ∨ 60 ≤ item.score) ∧
      admittedOK target (cur + item.duration) rest
  | _, Entry.brief _ :: _ => False

/-- No admitted entry is a long (over 90 minutes) item of score below 50,
and only scored entries are admitted. -/
def noLongLow : List Entry → Prop
  | [] => True
  | Entry.scored item :: rest => ¬(item.duration > 90 ∧ item.score < 50) ∧ noLongLow rest
  | Entry.brief _ :: _ => False

/-- Checks that a selection stops at the target: every entry other than the
last leaves the running duration, started at `cur`, strictly below
`target`. -/
def stopsAtTarget (target : ℚ) : ℚ → List Entry → Bool
  | _, [] => true
  | cur, e :: rest =>
    (rest.isEmpty || decide (cur + e.duration < target)) &&
      stopsAtTarget target (cur + e.duration) rest

/-- The item is an element of the list, every element before it has a
strictly earlier `pubDate`, and no element after it has a strictly later
one: it is the first element holding the latest timestamp. -/
def isFirstLatest (b : Item) (l : List Item) : Prop :=
  ∃ pre post, l = pre ++ b :: post ∧ (∀ p ∈ pre, p.pubDate < b.pubDate) ∧
    ∀ p ∈ post, p.pubDate ≤ b.pubDate

/-- The item is the first element of the list with duration strictly below
15 minutes. -/
def isFirstShort (b : Item) (l : List Item) : Prop :=
  ∃ pre post, l = pre ++ b :: post ∧ b.duration < 15 ∧ ∀ x ∈ pre, ¬ x.duration < 15

/-- Per-feed briefing picks: for each feed tagged both `news` and
`briefing`, its first sub-15-minute item, in feed order. -/
def picks (feeds : List Feed) : List Item :=
  feeds.filterMap (fun f =>
    if bothTags f then (feedItems f).find? (fun i => decide (i.duration < 15)) else none)

/-- One step of the cross-feed briefing comparison of line 93: a pick
replaces the current holder only when strictly fresher. -/
def briefStep (acc : Option Item) (b : Item) : Option Item :=
  match acc with
  | none => some b
  | some cur => if b.pubDate > cur.pubDate then some b else some cur

/-- Exemplar rule set with every keyword list empty. -/
def exRules : Rules :=
  { boost_keywords := [], block_keywords := [], boost_guests := [],
    datenight_keywords := [], datenight_block := [] }

/-- Exemplar base rule set with nonempty date-night extensions. -/
def exBaseRules : Rules :=
  { boost_keywords := ["ai"], block_keywords := ["ads"], boost_guests := [],
    datenight_keywords := ["date night"], datenight_block := ["crypto"] }

/-- Exemplar news candidate scored at map position 0. -/
def exNewsA : Item :=
  { title := "A", link := "", guid := none, audio_url := some "a.mp3",
    pubDate := 0, duration := 30, contentSnippet := "", feedName := "News", tags := ["news"] }

/-- Exemplar news candidate scored at map position 1. -/
def exNewsB : Item :=
  { title := "B", link := "", guid := none, audio_url := some "b.mp3",
    pubDate := 0, duration := 30, contentSnippet := "", feedName := "News", tags := ["news"] }

/-- Frozen clock: every `new Date()` reading returns time 0. -/
def exClockFrozen : ℕ → ℚ := fun _ => 0

/-- Drifting clock: the first `new Date()` reading returns time 0, every
later one returns a time ten days later. -/
def exClockDrift : ℕ → ℚ := fun i => if i = 0 then 0 else 864000000

/-- Exemplar briefing, published at time 0 and 12 minutes long; it is three
hours old at the gate reading 10800000 used with it. -/
def exBrief : Item :=
  { title := "Brief", link := "", guid := none, audio_url := some "brief.mp3",
    pubDate := 0, duration := 12, contentSnippet := "", feedName := "NewsBrief",
    tags := ["news", "briefing"] }

/-- Exemplar high-scored 30-minute candidate. -/
def exHigh : ScoredItem :=
  { title := "H", link := "", guid := none, audio_url := some "h.mp3",
    pubDate := 0, duration := 30, contentSnippet := "", feedName := "Feed",
    tags := [], score := 70 }

/-- Exemplar stale briefing: 200000000 ms (about 55.6 hours) old at the
gate reading used with it. -/
def exStaleBrief : Item :=
  { title := "Stale", link := "", guid := none, audio_url := some "s.mp3",
    pubDate := 0, duration := 8, contentSnippet := "", feedName := "NewsBrief",
    tags := ["news", "briefing"] }

/-- Exemplar evergreen 30-minute candidate (no newsy tag). -/
def exEvergreen : Item :=
  { title := "Ever", link := "", guid := none, audio_url := some "e.mp3",
    pubDate := 0, duration := 30, contentSnippet := "", feedName := "History",
    tags := ["history"] }

/-- Exemplar general feed carrying the evergreen candidate. -/
def exFeedGeneral : Feed :=
  { config := { name := "History", tags := ["history"] }, items := [exEvergreen] }

/-- Exemplar short briefing item for the selector. -/
def exShortBrief : Item :=
  { title := "Short", link := "", guid := none, audio_url := some "sb.mp3",
    pubDate := 1000, duration := 5, contentSnippet := "", feedName := "NewsBrief",
    tags := ["news", "briefing"] }

/-- Exemplar news-briefing feed carrying the short briefing item. -/
def exFeedBriefing : Feed :=
  { config := { name := "NewsBrief", tags := ["news", "briefing"] }, items := [exShortBrief] }

example : pack (some exBrief) [exHigh] 10 10800000 = [Entry.brief exBrief, Entry.scored exHigh] := by
  with_unfolding_all decide

example : stopsAtTarget 10 0 (pack (some exBrief) [exHigh] 10 10800000) = false := by
  with_unfolding_all decide

example :
    runSelection [exFeedGeneral] exRules false exClockFrozen 0 70 =
      [Entry.scored { toItem := exEvergreen, score := 20 }] := by
  have h1 : fetchAll [exFeedGeneral] = ([exEvergreen], none) := by
    with_unfolding_all decide
  have h2 : scoreAndFilter [exEvergreen] (rulesForRun exRules false) false exClockFrozen =
      [{ toItem := exEvergreen, score := 20 }] := by
    with_unfolding_all decide
  have h3 : pack none [{ toItem := exEvergreen, score := 20 }] 70 0 =
      [Entry.scored { toItem := exEvergreen, score := 20 }] := by
    with_unfolding_all decide
  rw [runSelection, h1]
  exact h2 ▸ h3

example : (fetchAll [exFeedBriefing]).2 = some exShortBrief := by
  with_unfolding_all decide

example :
    scoreAndFilter [exNewsA, exNewsB] exRules false exClockFrozen ≠
      scoreAndFilter [exNewsA, exNewsB] exRules false exClockDrift := by
  have h1 : scoreAndFilter [exNewsA, exNewsB] exRules false exClockFrozen =
      [{ toItem := exNewsA, score := 40 }, { toItem := exNewsB, score := 40 }] := by
    with_unfolding_all decide
  have h2 : scoreAndFilter [exNewsA, exNewsB] exRules false exClockDrift =
      [{ toItem := exNewsA, score := 40 }] := by
    with_unfolding_all decide
  rw [h1, h2]
  intro h
  exact absurd (congrArg List.length h) (by decide)

example : parseDuration (JSVal.str "90") = some (3 / 2) := by
  with_unfolding_all decide

example : parseDuration (JSVal.str "1:02:30") = some (125 / 2) := by
  with_unfolding_all decide

example : parseDuration (JSVal.str "a:b") = none := by
  with_unfolding_all decide

example : parseDuration (JSVal.str "  ") = none := by
  with_unfolding_all decide

example : parseDuration (JSVal.str "45:30") = some (91 / 2) := by
  with_unfolding_all decide

example : parseDuration (JSVal.num 120) = some 2 := by
  with_unfolding_all decide

example : parseDuration (JSVal.str "12.9") = some (1 / 5) := by
  with_unfolding_all decide

example : parseDuration (JSVal.str "1e3") = some (1 / 60) := by
  with_unfolding_all decide

example : parseDuration (JSVal.str "abc") = some 0 := by
  with_unfolding_all decide

example : sortByScoreDesc [] = [] := rfl

theorem packGo_eq_append (target : ℚ) (items : List ScoredItem) :
    ∀ (sel : List Entry) (cur : ℚ),
      packGo target items sel cur = sel ++ newAdmits target items sel cur := by
  induction items with
  | nil => intro sel cur; simp [packGo, newAdmits]
  | cons item rest ih =>
    intro sel cur
    simp only [packGo, newAdmits]
    split_ifs with h1 h2 h3 h4
    · exact ih sel cur
    · exact ih sel cur
    · exact ih sel cur
    · simp
    · rw [ih (sel ++ [Entry.scored item]) (cur + item.duration)]
      simp

theorem admittedOK_newAdmits (target : ℚ) (items : List ScoredItem) :
    ∀ (sel : List Entry) (cur : ℚ),
      admittedOK target cur (newAdmits target items sel cur) := by
  induction items with
  | nil => intro sel cur; simp [newAdmits, admittedOK]
  | cons item rest ih =>
    intro sel cur
    simp only [newAdmits]
    split_ifs with h1 h2 h3 h4
    · exact ih sel cur
    · exact ih sel cur
    · exact ih sel cur
    · refine ⟨?_, trivial⟩
      rcases not_and_or.mp h3 with h | h
      · exact Or.inl (not_lt.mp h)
      · exact Or.inr (not_lt.mp h)
    · refine ⟨?_, ih (sel ++ [Entry.scored item]) (cur + item.duration)⟩
      rcases not_and_or.mp h3 with h | h
      · exact Or.inl (not_lt.mp h)
      · exact Or.inr (not_lt.mp h)

theorem noLongLow_newAdmits (target : ℚ) (items : List ScoredItem) :
    ∀ (sel : List Entry) (cur : ℚ), noLongLow (newAdmits target items sel cur) := by
  induction items with
  | nil => intro sel cur; simp [newAdmits, noLongLow]
  | cons item rest ih =>
    intro sel cur
    simp only [newAdmits]
    split_ifs with h1 h2 h3 h4
    · exact ih sel cur
    · exact ih sel cur
    · exact ih sel cur
    · exact ⟨h2, trivial⟩
    · exact ⟨h2, ih (sel ++ [Entry.scored item]) (cur + item.duration)⟩

theorem stopsAtTarget_newAdmits (target : ℚ) (items : List ScoredItem) :
    ∀ (sel : List Entry) (cur : ℚ),
      stopsAtTarget target cur (newAdmits target items sel cur) = true := by
  induction items with
  | nil => intro sel cur; simp [newAdmits, stopsAtTarget]
  | cons item rest ih =>
    intro sel cur
    simp only [newAdmits]
    split_ifs with h1 h2 h3 h4
    · exact ih sel cur
    · exact ih sel cur
    · exact ih sel cur
    · simp [stopsAtTarget]
    · simp only [stopsAtTarget, Entry.duration, Bool.and_eq_true, Bool.or_eq_true]
      refine ⟨Or.inr ?_, ih (sel ++ [Entry.scored item]) (cur + item.duration)⟩
      exact decide_eq_true (not_le.mp h4)

theorem mem_newAdmits (target : ℚ) (items : List ScoredItem) :
    ∀ (sel : List Entry) (cur : ℚ) (e : Entry), e ∈ newAdmits target items sel cur →
      ∃ i, e = Entry.scored i ∧ i ∈ items := by
  induction items with
  | nil => intro sel cur e h; simp [newAdmits] at h
  | cons item rest ih =>
    intro sel cur e h
    simp only [newAdmits] at h
    split_ifs at h with h1 h2 h3 h4
    · obtain ⟨i, hi, hm⟩ := ih sel cur e h
      exact ⟨i, hi, List.mem_cons_of_mem _ hm⟩
    · obtain ⟨i, hi, hm⟩ := ih sel cur e h
      exact ⟨i, hi, List.mem_cons_of_mem _ hm⟩
    · obtain ⟨i, hi, hm⟩ := ih sel cur e h
      exact ⟨i, hi, List.mem_cons_of_mem _ hm⟩
    · simp only [List.mem_singleton] at h
      exact ⟨item, h, List.mem_cons_self _ _⟩
    · rcases List.mem_cons.mp h with h | h
      · exact ⟨item, h, List.mem_cons_self _ _⟩
      · obtain ⟨i, hi, hm⟩ := ih (sel ++ [Entry.scored item]) (cur + item.duration) e h
        exact ⟨i, hi, List.mem_cons_of_mem _ hm⟩

/-- C1: every item the packing loop admits, starting from any
already-selected prefix and accumulated duration, either keeps the
accumulator within `target + 15` at its admission or has score at least
60 (and the loop only ever appends scored entries to the prefix). -/
theorem packer_overflow_needs_high_score (target cur : ℚ) (items : List ScoredItem) (sel : List Entry) :
    packGo target items sel cur = sel ++ newAdmits target items sel cur ∧
      admittedOK target cur (newAdmits target items sel cur) :=
  ⟨packGo_eq_append target items sel cur, admittedOK_newAdmits target items sel cur⟩

/-- C8: the packing loop never admits an item that is longer than 90
minutes and scored below 50, whatever the remaining budget. -/
theorem packer_skips_long_low_scored (target cur : ℚ) (items : List ScoredItem) (sel : List Entry) :
    packGo target items sel cur = sel ++ newAdmits target items sel cur ∧
      noLongLow (newAdmits target items sel cur) :=
  ⟨packGo_eq_append target items sel cur, noLongLow_newAdmits target items sel cur⟩

/-- C4 (counterexample): with target 10, a fresh 12-minute briefing and a
30-minute candidate of score 70, the run admits the candidate even though
the accumulated duration 12 already reached the target before the packing
loop started, refuting the claim that no candidate is considered once the
accumulated duration reaches the target. -/
theorem packer_considers_after_seed_reaches_target :
    stopsAtTarget 10 0 (pack (some exBrief) [exHigh] 10 10800000) = false ∧
      pack (some exBrief) [exHigh] 10 10800000 = [Entry.brief exBrief, Entry.scored exHigh] := by
  constructor
  · with_unfolding_all decide
  · with_unfolding_all decide

/-- C4 (amended): within the packing loop itself the termination check
holds: starting from any accumulated duration, every entry the loop
admits other than its last one leaves the accumulator strictly below the
target, so no candidate is considered after a loop admission reaches the
target; only the briefing seed can put the accumulator at or past the
target while the first loop candidate is still considered. -/
theorem packer_loop_stops_at_target (target cur : ℚ) (items : List ScoredItem) (sel : List Entry) :
    packGo target items sel cur = sel ++ newAdmits target items sel cur ∧
      stopsAtTarget target cur (newAdmits target items sel cur) = true :=
  ⟨packGo_eq_append target items sel cur, stopsAtTarget_newAdmits target items sel cur⟩

theorem mem_insertDesc (x : ScoredItem) :
    ∀ (l : List ScoredItem) (z : ScoredItem), z ∈ insertDesc x l ↔ z = x ∨ z ∈ l := by
  intro l
  induction l with
  | nil => intro z; simp [insertDesc]
  | cons y ys ih =>
    intro z
    simp only [insertDesc]
    split_ifs with h
    · simp [List.mem_cons]
    · simp only [List.mem_cons, ih z]
      tauto

theorem mem_sortByScoreDesc (l : List ScoredItem) (z : ScoredItem) :
    z ∈ sortByScoreDesc l ↔ z ∈ l := by
  induction l with
  | nil => simp [sortByScoreDesc]
  | cons x xs ih =>
    simp only [sortByScoreDesc, List.foldr_cons] at *
    rw [mem_insertDesc, ih, List.mem_cons]

theorem All_iff_forall (p : α → Prop) : ∀ l : List α, All p l ↔ ∀ x ∈ l, p x := by
  intro l
  induction l with
  | nil => simp [All]
  | cons x xs ih => simp [All, ih]

theorem scoreAndFilter_scores (cands : List Item) (rules : Rules) (isThursday : Bool)
    (clock : ℕ → ℚ) :
    ∀ i ∈ scoreAndFilter cands rules isThursday clock, (-20 : ℤ) < i.score := by
  intro i hi
  simp only [scoreAndFilter] at hi
  exact of_decide_eq_true (List.mem_filter.mp hi).2

theorem mem_pack_scored (briefing : Option Item) (items : List ScoredItem) (target now : ℚ)
    (i : ScoredItem) : Entry.scored i ∈ pack briefing items target now → i ∈ items := by
  intro h
  have route : ∀ (b? : Option Item) (sel0 : List Entry) (cur0 : ℚ),
      sel0 = [] ∨ (∃ b, sel0 = [Entry.brief b]) →
      Entry.scored i ∈ packGo target (sortByScoreDesc items) sel0 cur0 → i ∈ items := by
    intro b? sel0 cur0 hsel hm
    rw [packGo_eq_append] at hm
    rcases List.mem_append.mp hm with hm | hm
    · rcases hsel with rfl | ⟨b, rfl⟩
      · simp at hm
      · simp at hm
    · obtain ⟨j, hj, hmem⟩ := mem_newAdmits _ _ _ _ _ hm
      obtain rfl : i = j := by simpa using hj
      exact (mem_sortByScoreDesc items i).mp hmem
  cases briefing with
  | none =>
    simp only [pack] at h
    exact route none [] 0 (Or.inl rfl) h
  | some b =>
    simp only [pack] at h
    by_cases hf : freshBriefing b now
    · rw [if_pos hf] at h
      exact route (some b) [Entry.brief b] b.duration (Or.inr ⟨b, rfl⟩) h
    · rw [if_neg hf] at h
      exact route (some b) [] 0 (Or.inl rfl) h

/-- C3: in any engine run, every candidate surviving the post-scoring
filter has score above -20, the sorted list handed to the packing loop
contains only such candidates, and therefore every scored entry of the
final selection has score above -20: a candidate with score at most -20
never appears, whatever the remaining budget. -/
theorem low_scored_never_selected (feeds : List Feed) (rules : Rules) (isThursday : Bool)
    (clock : ℕ → ℚ) (now target : ℚ) :
    All (fun it : ScoredItem => (-20 : ℤ) < it.score)
      (scoreAndFilter (fetchAll feeds).1 (rulesForRun rules isThursday) isThursday clock) ∧
    All (fun it : ScoredItem => (-20 : ℤ) < it.score)
      (sortByScoreDesc
        (scoreAndFilter (fetchAll feeds).1 (rulesForRun rules isThursday) isThursday clock)) ∧
    ∀ i : ScoredItem,
      Entry.scored i ∈ runSelection feeds rules isThursday clock now target →
        (-20 : ℤ) < i.score := by
  refine ⟨?_, ?_, ?_⟩
  · exact (All_iff_forall _ _).mpr (scoreAndFilter_scores _ _ _ _)
  · refine (All_iff_forall _ _).mpr ?_
    intro i hi
    exact scoreAndFilter_scores _ _ _ _ i ((mem_sortByScoreDesc _ i).mp hi)
  · intro i hi
    exact scoreAndFilter_scores _ _ _ _ i (mem_pack_scored _ _ _ _ i hi)

theorem low_scored_never_selected_witness :
    (-20 : ℤ) < ({ toItem := exEvergreen, score := 20 } : ScoredItem).score := by
  refine (low_scored_never_selected [exFeedGeneral] exRules false exClockFrozen 0 70).2.2
    { toItem := exEvergreen, score := 20 } ?_
  have h1 : fetchAll [exFeedGeneral] = ([exEvergreen], none) := by
    with_unfolding_all decide
  have h2 : scoreAndFilter [exEvergreen] (rulesForRun exRules false) false exClockFrozen =
      [{ toItem := exEvergreen, score := 20 }] := by
    with_unfolding_all decide
  have h3 : pack none [{ toItem := exEvergreen, score := 20 }] 70 0 =
      [Entry.scored { toItem := exEvergreen, score := 20 }] := by
    with_unfolding_all decide
  have : runSelection [exFeedGeneral] exRules false exClockFrozen 0 70 =
      [Entry.scored { toItem := exEvergreen, score := 20 }] := by
    rw [runSelection, h1]
    exact h2 ▸ h3
  rw [this]
  exact List.mem_singleton.mpr rfl

/-- C5: a selected briefing is inserted into the final selection exactly
when its age at the gate reading is under 24 hours, and then as the first
element, ahead of every scored candidate; a stale briefing is dropped and
the run proceeds exactly as a run with no briefing, whose selection
contains no briefing entry at all. -/
theorem briefing_gate_and_position (b : Item) (items : List ScoredItem) (target now : ℚ) :
    (freshBriefing b now →
      pack (some b) items target now =
        Entry.brief b :: newAdmits target (sortByScoreDesc items) [Entry.brief b] b.duration) ∧
    (¬ freshBriefing b now →
      pack (some b) items target now = pack none items target now ∧
        ∀ x : Item, Entry.brief x ∉ pack (some b) items target now) := by
  constructor
  · intro hf
    simp only [pack, if_pos hf]
    rw [packGo_eq_append]
    rfl
  · intro hf
    have he : pack (some b) items target now = pack none items target now := by
      simp only [pack, if_neg hf]
    refine ⟨he, ?_⟩
    intro x hx
    rw [he] at hx
    simp only [pack] at hx
    rw [packGo_eq_append] at hx
    rcases List.mem_append.mp hx with h | h
    · simp at h
    · obtain ⟨j, hj, _⟩ := mem_newAdmits _ _ _ _ _ h
      simp at hj

theorem briefing_gate_and_position_witness :
    pack (some exBrief) [] 70 10800000 = [Entry.brief exBrief] ∧
      pack (some exStaleBrief) [] 70 200000000 = pack none [] 70 200000000 := by
  constructor
  · have h := (briefing_gate_and_position exBrief [] 70 10800000).1
      (by with_unfolding_all decide)
    rw [h]
    with_unfolding_all decide
  · exact ((briefing_gate_and_position exStaleBrief [] 70 200000000).2
      (by with_unfolding_all decide)).1

/-- C2 (code bug evidence): the date-night merge reassigns the keyword
lists on the shared `config.rules` object, so after the merge the base
configuration carries the extended lists instead of its original ones:
with base boost list `["ai"]` and date-night list `["date night"]`, the
rules object observed after the merge differs from the base and holds the
concatenated lists. -/
theorem dateNight_merge_changes_base_rules :
    rulesForRun exBaseRules true ≠ exBaseRules ∧
      (rulesForRun exBaseRules true).boost_keywords =
        exBaseRules.boost_keywords ++ exBaseRules.datenight_keywords ∧
      (rulesForRun exBaseRules true).block_keywords =
        exBaseRules.block_keywords ++ exBaseRules.datenight_block := by
  refine ⟨?_, ?_, ?_⟩
  · with_unfolding_all decide
  · with_unfolding_all decide
  · with_unfolding_all decide

/-- C7 (code bug evidence): scoring reads `new Date()` inside each map
callback rather than once per run: with identical inputs and identical
first readings, a clock that drifts ten days between the first and second
callback produces a different filtered candidate list than the frozen
clock, so the output depends on per-candidate clock readings. -/
theorem scoring_reads_clock_per_candidate :
    exClockFrozen 0 = exClockDrift 0 ∧
      scoreAndFilter [exNewsA, exNewsB] exRules false exClockFrozen ≠
        scoreAndFilter [exNewsA, exNewsB] exRules false exClockDrift := by
  constructor
  · with_unfolding_all decide
  · have h1 : scoreAndFilter [exNewsA, exNewsB] exRules false exClockFrozen =
        [{ toItem := exNewsA, score := 40 }, { toItem := exNewsB, score := 40 }] := by
      with_unfolding_all decide
    have h2 : scoreAndFilter [exNewsA, exNewsB] exRules false exClockDrift =
        [{ toItem := exNewsA, score := 40 }] := by
      with_unfolding_all decide
    rw [h1, h2]
    intro h
    exact absurd (congrArg List.length h) (by decide)

/-- C6 (counterexample): the string "a:b" is not one of the recognized
duration shapes, yet the normalizer returns NaN for it instead of the 0
the claim requires for every other shape. -/
theorem parseDuration_colon_nan_counterexample :
    parseDuration (JSVal.str "a:b") ≠ some 0 ∧ parseDuration (JSVal.str "a:b") = none := by
  constructor
  · with_unfolding_all decide
  · with_unfolding_all decide

theorem parseDuration_str_unrecognized (s : String) (hs : s ≠ "")
    (h1 : (jsNumber s).isSome = false) :
    parseDuration (JSVal.str s) =
      (if ((splitOnColon s.toList).map jsNumberL).length = 3 then
        jAdd
          (jAdd (jMulC (((splitOnColon s.toList).map jsNumberL).getD 0 none) 60)
            (((splitOnColon s.toList).map jsNumberL).getD 1 none))
          (jDivC (((splitOnColon s.toList).map jsNumberL).getD 2 none) 60)
      else if ((splitOnColon s.toList).map jsNumberL).length = 2 then
        jAdd (((splitOnColon s.toList).map jsNumberL).getD 0 none)
          (jDivC (((splitOnColon s.toList).map jsNumberL).getD 1 none) 60)
      else some 0) := by
  simp only [parseDuration, if_neg hs, h1, Bool.false_eq_true, if_false]

/-- C6 (amended): the normalizer is total and matches the case analysis,
except that unrecognized strings that still enter a numeric conversion
produce NaN rather than 0: absent input and the empty string give 0, a
number is divided by 60, a non-NaN numeric string is `parseInt`-parsed and
divided by 60 (NaN when no leading integer exists, as for whitespace-only
strings), a colon string of three numeric parts gives `H*60 + MM + SS/60`
and of two numeric parts `MM + SS/60`, a 2- or 3-part colon string with a
non-numeric part gives NaN, and every other split length gives 0; no case
raises an error. -/
theorem parseDuration_case_analysis :
    parseDuration JSVal.undefined = some 0 ∧
    (∀ q : ℚ, parseDuration (JSVal.num q) = some (q / 60)) ∧
    parseDuration (JSVal.str "") = some 0 ∧
    (∀ (s : String) (n : ℤ), (jsNumber s).isSome = true → parseIntJS s = some n →
      parseDuration (JSVal.str s) = some ((n : ℚ) / 60)) ∧
    (∀ s : String, s ≠ "" → (jsNumber s).isSome = true → parseIntJS s = none →
      parseDuration (JSVal.str s) = none) ∧
    (∀ (s : String) (hr mi se : ℚ), jsNumber s = none →
      (splitOnColon s.toList).map jsNumberL = [some hr, some mi, some se] →
      parseDuration (JSVal.str s) = some (hr * 60 + mi + se / 60)) ∧
    (∀ (s : String) (mi se : ℚ), jsNumber s = none →
      (splitOnColon s.toList).map jsNumberL = [some mi, some se] →
      parseDuration (JSVal.str s) = some (mi + se / 60)) ∧
    (∀ (s : String) (a b : Option ℚ), jsNumber s = none →
      (splitOnColon s.toList).map jsNumberL = [a, b] → a = none ∨ b = none →
      parseDuration (JSVal.str s) = none) ∧
    (∀ (s : String) (a b c : Option ℚ), jsNumber s = none →
      (splitOnColon s.toList).map jsNumberL = [a, b, c] → a = none ∨ b = none ∨ c = none →
      parseDuration (JSVal.str s) = none) ∧
    (∀ s : String, jsNumber s = none → (splitOnColon s.toList).length ≠ 2 →
      (splitOnColon s.toList).length ≠ 3 → parseDuration (JSVal.str s) = some 0) := by
  have hempty : jsNumber "" = some 0 := by with_unfolding_all decide
  have hpempty : parseIntJS "" = none := by with_unfolding_all decide
  refine ⟨rfl, ?_, ?_, ?_, ?_, ?_, ?_, ?_, ?_, ?_⟩
  · intro q
    simp only [parseDuration]
    split_ifs with h
    · rw [h]; norm_num
    · rfl
  · with_unfolding_all decide
  · intro s n h1 h2
    have hs : s ≠ "" := by
      intro he; subst he
      rw [hpempty] at h2
      exact Option.noConfusion h2
    simp [parseDuration, hs, h1, h2]
  · intro s hs h1 h2
    simp [parseDuration, hs, h1, h2]
  · intro s hr mi se h1 h2
    have hs : s ≠ "" := by
      intro he; subst he
      rw [hempty] at h1
      exact Option.noConfusion h1
    have hsome : (jsNumber s).isSome = false := by rw [h1]; rfl
    rw [parseDuration_str_unrecognized s hs hsome, h2]
    simp [jAdd, jMulC, jDivC]
  · intro s mi se h1 h2
    have hs : s ≠ "" := by
      intro he; subst he
      rw [hempty] at h1
      exact Option.noConfusion h1
    have hsome : (jsNumber s).isSome = false := by rw [h1]; rfl
    rw [parseDuration_str_unrecognized s hs hsome, h2]
    simp [jAdd, jMulC, jDivC]
  · intro s a b h1 h2 hab
    have hs : s ≠ "" := by
      intro he; subst he
      rw [hempty] at h1
      exact Option.noConfusion h1
    have hsome : (jsNumber s).isSome = false := by rw [h1]; rfl
    rw [parseDuration_str_unrecognized s hs hsome, h2]
    rcases hab with rfl | rfl
    · simp [jAdd, jMulC, jDivC]
    · cases a <;> simp [jAdd, jMulC, jDivC]
  · intro s a b c h1 h2 habc
    have hs : s ≠ "" := by
      intro he; subst he
      rw [hempty] at h1
      exact Option.noConfusion h1
    have hsome : (jsNumber s).isSome = false := by rw [h1]; rfl
    rw [parseDuration_str_unrecognized s hs hsome, h2]
    rcases habc with rfl | rfl | rfl
    · simp [jAdd, jMulC, jDivC]
    · cases a <;> simp [jAdd, jMulC, jDivC]
    · cases a <;> cases b <;> simp [jAdd, jMulC, jDivC]
  · intro s h1 hl2 hl3
    have hs : s ≠ "" := by
      intro he; subst he
      rw [hempty] at h1
      exact Option.noConfusion h1
    have hsome : (jsNumber s).isSome = false := by rw [h1]; rfl
    rw [parseDuration_str_unrecognized s hs hsome]
    simp only [List.length_map]
    rw [if_neg hl3, if_neg hl2]

theorem parseDuration_case_analysis_witness :
    parseDuration (JSVal.num 120) = some (120 / 60) ∧
    parseDuration (JSVal.str "90") = some ((90 : ℤ) / 60 : ℚ) ∧
    parseDuration (JSVal.str "  ") = none ∧
    parseDuration (JSVal.str "1:02:30") = some (1 * 60 + 2 + 30 / 60) ∧
    parseDuration (JSVal.str "45:30") = some (45 + 30 / 60) ∧
    parseDuration (JSVal.str "a:b") = none ∧
    parseDuration (JSVal.str "1:2:x") = none ∧
    parseDuration (JSVal.str "abc") = some 0 := by
  refine ⟨parseDuration_case_analysis.2.1 120, ?_, ?_, ?_, ?_, ?_, ?_, ?_⟩
  · exact parseDuration_case_analysis.2.2.2.1 "90" 90
      (by with_unfolding_all decide) (by with_unfolding_all decide)
  · exact parseDuration_case_analysis.2.2.2.2.1 "  "
      (by with_unfolding_all decide) (by with_unfolding_all decide) (by with_unfolding_all decide)
  · exact parseDuration_case_analysis.2.2.2.2.2.1 "1:02:30" 1 2 30
      (by with_unfolding_all decide) (by with_unfolding_all decide)
  · exact parseDuration_case_analysis.2.2.2.2.2.2.1 "45:30" 45 30
      (by with_unfolding_all decide) (by with_unfolding_all decide)
  · exact parseDuration_case_analysis.2.2.2.2.2.2.2.1 "a:b" none none
      (by with_unfolding_all decide) (by with_unfolding_all decide) (Or.inl rfl)
  · exact parseDuration_case_analysis.2.2.2.2.2.2.2.2.1 "1:2:x" (some 1) (some 2) none
      (by with_unfolding_all decide) (by with_unfolding_all decide) (Or.inr (Or.inr rfl))
  · exact parseDuration_case_analysis.2.2.2.2.2.2.2.2.2 "abc"
      (by with_unfolding_all decide) (by with_unfolding_all decide) (by with_unfolding_all decide)

theorem fetchStep_both (c : List Item) (nb : Option Item) (f : Feed) (hb : bothTags f = true) :
    fetchStep (c, nb) f =
      (c, match (feedItems f).find? (fun i => decide (i.duration < 15)) with
          | none => nb
          | some b => briefStep nb b) := by
  simp only [fetchStep, if_pos hb]
  cases hfind : (feedItems f).find? (fun i => decide (i.duration < 15)) with
  | none => rfl
  | some b =>
    cases nb with
    | none => rfl
    | some cur =>
      simp only [briefStep]
      split_ifs <;> rfl

theorem fetchStep_notBoth (c : List Item) (nb : Option Item) (f : Feed)
    (hb : bothTags f = false) : fetchStep (c, nb) f = (c ++ feedItems f, nb) := by
  simp only [fetchStep, hb, Bool.false_eq_true, if_false]

theorem foldl_fetch_fst : ∀ (feeds : List Feed) (c : List Item) (nb : Option Item),
    (List.foldl fetchStep (c, nb) feeds).1 =
      c ++ (feeds.filter (fun f => !bothTags f)).flatMap feedItems := by
  intro feeds
  induction feeds with
  | nil => intro c nb; simp
  | cons f rest ih =>
    intro c nb
    by_cases hb : bothTags f
    · rw [List.foldl_cons, fetchStep_both c nb f hb, ih]
      simp [List.filter_cons, hb]
    · have hb2 : bothTags f = false := by simpa using hb
      rw [List.foldl_cons, fetchStep_notBoth c nb f hb2, ih]
      simp [List.filter_cons, hb2, List.append_assoc]

theorem foldl_fetch_snd : ∀ (feeds : List Feed) (c : List Item) (nb : Option Item),
    (List.foldl fetchStep (c, nb) feeds).2 = List.foldl briefStep nb (picks feeds) := by
  intro feeds
  induction feeds with
  | nil => intro c nb; simp [picks]
  | cons f rest ih =>
    intro c nb
    rw [List.foldl_cons]
    by_cases hb : bothTags f
    · rw [fetchStep_both c nb f hb]
      cases hfind : (feedItems f).find? (fun i => decide (i.duration < 15)) with
      | none =>
        rw [ih]
        congr 1
        simp [picks, List.filterMap_cons, hb, hfind]
      | some b =>
        rw [ih]
        have hp : picks (f :: rest) = b :: picks rest := by
          simp [picks, List.filterMap_cons, hb, hfind]
        rw [hp, List.foldl_cons]
    · have hb2 : bothTags f = false := by simpa using hb
      rw [fetchStep_notBoth c nb f hb2, ih]
      congr 1
      simp [picks, List.filterMap_cons, hb2]

theorem foldl_briefStep_spec : ∀ (l : List Item) (a : Item),
    (List.foldl briefStep (some a) l = some a ∧ ∀ p ∈ l, p.pubDate ≤ a.pubDate) ∨
    (∃ r pre post, List.foldl briefStep (some a) l = some r ∧ l = pre ++ r :: post ∧
      a.pubDate < r.pubDate ∧ (∀ p ∈ pre, p.pubDate < r.pubDate) ∧
      ∀ p ∈ post, p.pubDate ≤ r.pubDate) := by
  intro l
  induction l with
  | nil => intro a; left; exact ⟨rfl, by simp⟩
  | cons x xs ih =>
    intro a
    simp only [List.foldl_cons, briefStep]
    by_cases hx : x.pubDate > a.pubDate
    · rw [if_pos hx]
      rcases ih x with ⟨heq, hall⟩ | ⟨r, pre, post, heq, hsplit, hlt, hpre, hpost⟩
      · right
        exact ⟨x, [], xs, heq, by simp, hx, by simp, hall⟩
      · right
        refine ⟨r, x :: pre, post, heq, by rw [hsplit]; rfl, lt_trans hx hlt, ?_, hpost⟩
        intro p hp
        rcases List.mem_cons.mp hp with rfl | hp
        · exact hlt
        · exact hpre p hp
    · rw [if_neg hx]
      push_neg at hx
      rcases ih a with ⟨heq, hall⟩ | ⟨r, pre, post, heq, hsplit, hlt, hpre, hpost⟩
      · left
        refine ⟨heq, ?_⟩
        intro p hp
        rcases List.mem_cons.mp hp with rfl | hp
        · exact hx
        · exact hall p hp
      · right
        refine ⟨r, x :: pre, post, heq, by rw [hsplit]; rfl, hlt, ?_, hpost⟩
        intro p hp
        rcases List.mem_cons.mp hp with rfl | hp
        · exact lt_of_le_of_lt hx hlt
        · exact hpre p hp

theorem fetchAll_snd_none_iff (feeds : List Feed) :
    (fetchAll feeds).2 = none ↔ picks feeds = [] := by
  rw [fetchAll, foldl_fetch_snd]
  cases hp : picks feeds with
  | nil => simp
  | cons p ps =>
    simp only [List.foldl_cons, briefStep]
    rcases foldl_briefStep_spec ps p with ⟨heq, _⟩ | ⟨r, pre, post, heq, _, _, _, _⟩ <;>
      simp [heq]

theorem fetchAll_snd_some (feeds : List Feed) (b : Item) :
    (fetchAll feeds).2 = some b → isFirstLatest b (picks feeds) := by
  rw [fetchAll, foldl_fetch_snd]
  cases hp : picks feeds with
  | nil => intro h; exact absurd h (by simp)
  | cons p ps =>
    intro h
    simp only [List.foldl_cons, briefStep] at h
    rcases foldl_briefStep_spec ps p with ⟨heq, hall⟩ | ⟨r, pre, post, heq, hsplit, hlt, hpre, hpost⟩
    · rw [heq] at h
      obtain rfl := Option.some.inj h
      exact ⟨[], ps, rfl, by simp, hall⟩
    · rw [heq] at h
      obtain rfl := Option.some.inj h
      refine ⟨p :: pre, post, by rw [hsplit]; rfl, ?_, hpost⟩
      intro q hq
      rcases List.mem_cons.mp hq with rfl | hq
      · exact hlt
      · exact hpre q hq

theorem find?_isFirstShort : ∀ (l : List Item) (b : Item),
    l.find? (fun i => decide (i.duration < 15)) = some b → isFirstShort b l := by
  intro l
  induction l with
  | nil => intro b h; exact absurd h (by simp)
  | cons x xs ih =>
    intro b h
    by_cases hx : x.duration < 15
    · rw [@List.find?_cons_of_pos _ (fun i => decide (i.duration < 15)) x xs
        (decide_eq_true hx)] at h
      obtain rfl := Option.some.inj h
      exact ⟨[], xs, rfl, hx, by simp⟩
    · rw [@List.find?_cons_of_neg _ (fun i => decide (i.duration < 15)) x xs
        (by simpa using hx)] at h
      obtain ⟨pre, post, hsplit, hdur, hpre⟩ := ih b h
      refine ⟨x :: pre, post, by rw [hsplit]; rfl, hdur, ?_⟩
      intro y hy
      rcases List.mem_cons.mp hy with rfl | hy
      · exact hx
      · exact hpre y hy

theorem feedItems_truncate (f : Feed) : feedItems (truncateFeed f) = feedItems f := by
  simp [feedItems, truncateFeed, List.take_take]

theorem fetchStep_truncate (st : List Item × Option Item) (f : Feed) :
    fetchStep st (truncateFeed f) = fetchStep st f := by
  simp only [fetchStep, feedItems_truncate]
  rfl

theorem foldl_fetch_truncate : ∀ (feeds : List Feed) (st : List Item × Option Item),
    List.foldl fetchStep st (feeds.map truncateFeed) = List.foldl fetchStep st feeds := by
  intro feeds
  induction feeds with
  | nil => intro st; rfl
  | cons f rest ih =>
    intro st
    rw [List.map_cons, List.foldl_cons, List.foldl_cons, fetchStep_truncate]
    exact ih _

/-- C9: the cross-feed briefing choice is empty exactly when no feed
tagged both `news` and `briefing` has a sub-15-minute item among its
first five; a chosen briefing is the first of the per-feed picks holding
the latest `publishedAt` (every earlier pick is strictly older, no later
pick is strictly fresher, so ties keep the first found); each per-feed
pick is the first item of its feed with duration under 15 minutes; and
the general scored candidate pool consists exactly of the items of feeds
not tagged both ways, so the chosen briefing is never scored and is
exempt from the score-based discard filter. -/
theorem briefing_selector_first_latest (feeds : List Feed) :
    ((fetchAll feeds).2 = none ↔ picks feeds = []) ∧
    (∀ b, (fetchAll feeds).2 = some b → isFirstLatest b (picks feeds)) ∧
    (∀ (f : Feed) (b : Item), bothTags f = true →
      (feedItems f).find? (fun i => decide (i.duration < 15)) = some b →
        isFirstShort b (feedItems f)) ∧
    (fetchAll feeds).1 = (feeds.filter (fun f => !bothTags f)).flatMap feedItems := by
  refine ⟨fetchAll_snd_none_iff feeds, fun b => fetchAll_snd_some feeds b,
    fun f b _ h => find?_isFirstShort _ b h, ?_⟩
  rw [fetchAll, foldl_fetch_fst]
  rw [List.nil_append]

theorem briefing_selector_first_latest_witness :
    isFirstLatest exShortBrief (picks [exFeedBriefing]) ∧
      isFirstShort exShortBrief (feedItems exFeedBriefing) := by
  constructor
  · refine (briefing_selector_first_latest [exFeedBriefing]).2.1 exShortBrief ?_
    with_unfolding_all decide
  · refine (briefing_selector_first_latest [exFeedBriefing]).2.2.1 exFeedBriefing exShortBrief ?_ ?_
    · with_unfolding_all decide
    · with_unfolding_all decide

/-- C10: the engine never looks past the first five fetched items of any
feed: truncating every feed to its first five items leaves the whole
fetch result, general candidates and briefing pick alike, unchanged; and
feeds tagged both `news` and `briefing` contribute nothing to the
general scored candidate pool, which consists exactly of the items of
the remaining feeds, so the items of such feeds (even those of 15
minutes or more) are never scored. -/
theorem first_five_and_briefing_pool_isolation (feeds : List Feed) :
    fetchAll (feeds.map truncateFeed) = fetchAll feeds ∧
      (fetchAll feeds).1 = (feeds.filter (fun f => !bothTags f)).flatMap feedItems := by
  constructor
  · exact foldl_fetch_truncate feeds ([], none)
  · rw [fetchAll, foldl_fetch_fst]
    rw [List.nil_append]
